import Mathlib

/-!
Verification development for the cursor-rules streaming protocol client.

The definitions below are a shallow embedding of the streaming-event code of
the repository:

* the chunk decoder, line router and per-event reducer of
  `apps/frontend/src/hooks/useRuleGeneration.ts` (`generateRule`);
* the message completion gate, dedup guard and `handleStreamingEvent`
  reducer of the `AIChatPanel` component
  (`apps/backend/src/ai/types.ts`, concatenated component source);
* the producer-side phase state machine, which has no implementation in the
  repository sources (only the client consumes its events) and is therefore
  modelled from the specification.

JavaScript strings are embedded as `List Char` where character-level
operations (split on line feed, trim, slice) matter, and as Lean `String`
for accumulated content.  `JSON.parse` is embedded as an explicit
`parse` function argument: the routing code only observes whether a line
parses to a recognised event, so every theorem below is proved for an
arbitrary parse function and instantiated with concrete ones in witnesses.
-/

namespace RuleCraft

/-- JavaScript whitespace test for the characters relevant to `trim()`. -/
def isWsChar (c : Char) : Bool :=
  c = ' ' || c = '\t' || c = '\n' || c = '\r'

/-- Embedding of JavaScript `String.prototype.trim` on character lists. -/
def trimChars (l : List Char) : List Char :=
  ((l.dropWhile isWsChar).reverse.dropWhile isWsChar).reverse

/-- Embedding of JavaScript `String.prototype.split('\n')`: the list of
segments between line feeds, always non-empty, with the (possibly empty)
trailing segment last. -/
def splitNl : List Char → List (List Char)
  | [] => [[]]
  | c :: cs =>
    if c = '\n' then [] :: splitNl cs
    else
      match splitNl cs with
      | [] => [[c]]
      | l :: ls => (c :: l) :: ls

/-- Last element of a split result, `[]` when the list is empty
(mirrors `lines.pop() || ''` in the decoder; `splitNl` is never empty). -/
def lastSeg : List (List Char) → List Char
  | [] => []
  | [l] => l
  | _ :: l :: ls => lastSeg (l :: ls)

/-- One read of the chunk decoder of `generateRule`
(`buffer += decoder.decode(value); const lines = buffer.split('\n');
buffer = lines.pop() || ''`): append the fragment to the carry-over
buffer, split on line feed, emit every segment but the last, keep the
last segment as the new buffer. -/
def decodeFragment (buf f : List Char) : List (List Char) × List Char :=
  let ls := splitNl (buf ++ f)
  (ls.dropLast, lastSeg ls)

/-- The decoder loop of `generateRule` run over a whole fragment stream with
an explicit carry-over buffer; at stream end (`done`) the remaining buffer
is dropped without being emitted. -/
def feedLoop : List Char → List (List Char) → List (List Char)
  | _, [] => []
  | buf, f :: fs =>
    let r := decodeFragment buf f
    r.1 ++ feedLoop r.2 fs

/-- All complete lines the chunk decoder emits for a fragment stream,
starting from an empty buffer. -/
def feedAll (fs : List (List Char)) : List (List Char) :=
  feedLoop [] fs

/-- Rule type enumeration (`'PROJECT_RULE' | 'COMMAND' | 'USER_RULE'`). -/
inductive RuleType
  | projectRule
  | command
  | userRule
deriving DecidableEq, Repr

/-- Metadata carried by `phase-start` events and stored in the state. -/
structure Metadata where
  ruleType : RuleType
  fileName : Option String
deriving DecidableEq, Repr

/-- The two streaming phases of the wire protocol. -/
inductive GenPhase
  | ruleGeneration
  | followUpMessage
deriving DecidableEq, Repr

/-- The `currentPhase` field of the hook state. -/
inductive CurrentPhase
  | idle
  | ruleGeneration
  | followUpMessage
  | completed
deriving DecidableEq, Repr

/-- `RuleGenerationStreamChunk`: the tagged union of events `generateRule`
routes on.  Optional string fields model fields that may be absent in the
JSON payload. -/
inductive StreamChunk
  | phaseStart (phase : GenPhase) (metadata : Option Metadata)
  | ruleContent (content : Option String)
  | followUpContent (content : Option String)
  | phaseEnd (phase : GenPhase) (finalContent : Option String)
  | error (errorText : Option String)
deriving DecidableEq, Repr

/-- `RuleGenerationState` of `useRuleGeneration`, merged with the local
accumulators `currentRuleContent` / `currentFollowUpContent` /
`metadata` of `generateRule`, which the hook keeps in lockstep with the
state fields (every assignment writes the accumulator into the state). -/
structure SessionState where
  isGenerating : Bool
  isStreamingRule : Bool
  isStreamingFollowUp : Bool
  currentPhase : CurrentPhase
  ruleContent : String
  followUpContent : String
  error : Option String
  metadata : Option Metadata
deriving DecidableEq, Repr

/-- JavaScript truthiness of an optional string (`undefined` and `''` are
falsy). -/
def jsTruthy : Option String → Bool
  | none => false
  | some t => !t.data.isEmpty

/-- JavaScript `a || b` for an optional string `a` and a string default
`b`: `b` when `a` is absent or empty, `a` otherwise. -/
def jsOrStr (a : Option String) (b : String) : String :=
  match a with
  | none => b
  | some t => if t.data.isEmpty then b else t

/-- The initial hook state (`useState` literal of `useRuleGeneration`). -/
def initialState : SessionState :=
  { isGenerating := false
    isStreamingRule := false
    isStreamingFollowUp := false
    currentPhase := .idle
    ruleContent := ""
    followUpContent := ""
    error := none
    metadata := none }

/-- The state update executed once at the top of `generateRule`, before the
stream is read: `isGenerating=true, currentPhase='rule-generation',
ruleContent='', followUpContent='', error=null`, all other fields kept. -/
def startGenerate (s : SessionState) : SessionState :=
  { s with
    isGenerating := true
    currentPhase := .ruleGeneration
    ruleContent := ""
    followUpContent := ""
    error := none }

/-- The `switch (chunk.type)` of `generateRule`, as a pure reducer.

Notes on fidelity:
* `phase-start('rule-generation')` sets only `isStreamingRule`,
  `currentPhase` and `metadata` (the spread keeps every other field);
* `rule-content` / `follow-up-content` append only under
  `if (chunk.content)`, i.e. only truthy content;
* `phase-end` uses `chunk.finalContent || current…Content`, i.e. an empty
  final content does not override the accumulator;
* the `error` case performs its state update and then throws, but the
  throw is caught by the enclosing `catch (parseError)` of the JSON-parse
  block, so from the outside the case reduces to the state update and the
  line loop continues. -/
def applyChunk (s : SessionState) (c : StreamChunk) : SessionState :=
  match c with
  | .phaseStart .ruleGeneration md =>
    { s with isStreamingRule := true, currentPhase := .ruleGeneration, metadata := md }
  | .phaseStart .followUpMessage _ =>
    { s with isStreamingRule := false, isStreamingFollowUp := true,
             currentPhase := .followUpMessage }
  | .ruleContent content =>
    if jsTruthy content then
      { s with ruleContent := s.ruleContent ++ content.getD "" }
    else s
  | .followUpContent content =>
    if jsTruthy content then
      { s with followUpContent := s.followUpContent ++ content.getD "" }
    else s
  | .phaseEnd .ruleGeneration fin =>
    { s with ruleContent := jsOrStr fin s.ruleContent, isStreamingRule := false }
  | .phaseEnd .followUpMessage fin =>
    { s with followUpContent := jsOrStr fin s.followUpContent,
             isStreamingFollowUp := false, currentPhase := .completed,
             isGenerating := false }
  | .error errorText =>
    { s with error := some (jsOrStr errorText "Unknown error occurred"),
             isGenerating := false, isStreamingRule := false,
             isStreamingFollowUp := false, currentPhase := .idle }

/-- The literal prefix `'data: '` checked by the SSE line router. -/
def dataPrefix : List Char := ['d', 'a', 't', 'a', ':', ' ']

/-- Whether a line starts with `'data: '`. -/
def startsWithData (l : List Char) : Bool :=
  l.take 6 == dataPrefix

/-- The body of the `for (const line of lines)` loop of `generateRule`:
skip blank lines, route `data: `-prefixed lines through `JSON.parse`
(embedded as `parse`), apply recognised chunks, silently drop lines whose
payload fails to parse (the `catch (parseError)` branch).  Lines without
the prefix are ignored. -/
def processLine (parse : List Char → Option StreamChunk)
    (s : SessionState) (line : List Char) : SessionState :=
  if (trimChars line).isEmpty then s
  else if startsWithData line then
    match parse (line.drop 6) with
    | some c => applyChunk s c
    | none => s
  else s

/-- All lines of a stream routed through `processLine`, in order. -/
def processLines (parse : List Char → Option StreamChunk)
    (s : SessionState) (lines : List (List Char)) : SessionState :=
  lines.foldl (processLine parse) s

/-- The session state at the end of the `generateRule` read loop for a
given fragment stream: initial reset, chunk decoding, line routing. -/
def finalSession (parse : List Char → Option StreamChunk)
    (s : SessionState) (frags : List (List Char)) : SessionState :=
  processLines parse (startGenerate s) (feedAll frags)

/-- `RuleGenerationResponse` as built at the end of `generateRule`
(the wall-clock timestamp and the request echo fields `model` /
`provider` are outside the state machine and omitted). -/
structure RuleGenerationResponse where
  ruleContent : String
  followUpMessage : String
  ruleType : RuleType
  fileName : String
deriving DecidableEq, Repr

/-- How the `generateRule` promise settles. -/
inductive GenOutcome
  | resolved (r : RuleGenerationResponse)
  | rejected (msg : String)
deriving DecidableEq, Repr

/-- Whether an outcome is a rejection. -/
def isRejected : GenOutcome → Bool
  | .rejected _ => true
  | .resolved _ => false

/-- The result object construction at the end of `generateRule`:
`ruleType: metadata?.ruleType || 'PROJECT_RULE'`,
`fileName: metadata?.fileName || 'generated-rule'`. -/
def buildResponse (s : SessionState) : RuleGenerationResponse :=
  { ruleContent := s.ruleContent
    followUpMessage := s.followUpContent
    ruleType := match s.metadata with
      | some m => m.ruleType
      | none => .projectRule
    fileName := jsOrStr (s.metadata.bind (fun m => m.fileName)) "generated-rule" }

/-- `generateRule` for a stream of decoded text fragments.  `ok` is the
transport verdict (`response.ok`): a non-success status throws before the
read loop and the outer catch rejects.  On a successful transport the
read loop runs to completion and the accumulated result is resolved —
the function body contains no other rejection point, because the only
in-loop `throw` (the `error` event case) is caught by the JSON-parse
`catch`. -/
def generateRule (parse : List Char → Option StreamChunk) (ok : Bool)
    (s : SessionState) (frags : List (List Char)) : GenOutcome :=
  if ok then
    .resolved (buildResponse (finalSession parse s frags))
  else
    .rejected "HTTP error"

/-- The wire event vocabulary of the `AIChatPanel` event line parser
(`'meta' | 'chunk' | 'progress' | 'file' | 'done' | 'error' | 'clarify'`).
Only the `chunk` payload's `content` field feeds the state reducer; the
other payload fields are consumed by UI callbacks and are omitted. -/
inductive SEvent
  | meta
  | chunk (content : Option String)
  | progress
  | file
  | done
  | error
  | clarify
deriving DecidableEq, Repr

/-- The `AIChatPanel` state touched by streaming events: the
`isGeneratingRules` flag, the accumulated `ruleContent`, and the
`processedMessageIdsRef` dedup set (kept as a list of ids). -/
structure PanelState where
  isGeneratingRules : Bool
  ruleContent : String
  processedIds : List String
deriving DecidableEq, Repr

/-- `handleStreamingEvent` of `AIChatPanel`: `meta` starts a generation and
clears the accumulator; `chunk` appends its content only while
`isGeneratingRules` is set; `done`, `error` and `clarify` end the
generation; `progress` and `file` have no case in the switch and leave
the state unchanged. -/
def handleStreamingEvent (s : PanelState) (e : SEvent) : PanelState :=
  match e with
  | .meta => { s with isGeneratingRules := true, ruleContent := "" }
  | .chunk content =>
    if s.isGeneratingRules then
      { s with ruleContent := s.ruleContent ++ content.getD "" }
    else s
  | .done => { s with isGeneratingRules := false }
  | .error => { s with isGeneratingRules := false }
  | .clarify => { s with isGeneratingRules := false }
  | .progress => s
  | .file => s

/-- Message part state of the chat transport (`TextUIPart.state`). -/
inductive PartState
  | streaming
  | done
deriving DecidableEq, BEq, Repr

/-- One part of an inbound chat message: textual or not, its streaming
state, and its text. -/
structure MsgPart where
  isText : Bool
  state : PartState
  text : List Char
deriving DecidableEq, Repr

/-- Message role. -/
inductive MsgRole
  | user
  | assistant
deriving DecidableEq, Repr

/-- An inbound chat message: id, role, ordered parts, and the legacy
`content` property used by the backward-compatibility branch of the
parser. -/
structure Msg where
  id : String
  role : MsgRole
  parts : List MsgPart
  content : Option (List Char)
deriving DecidableEq, Repr

/-- The completion gate of the `AIChatPanel` message effect:
`parts.every(part => part.type !== 'text' || part.state === 'done')` —
a message is settled exactly when no textual part is still streaming. -/
def msgIsDone (m : Msg) : Bool :=
  m.parts.all (fun p => !p.isText || p.state == PartState.done)

/-- The event extraction of the `AIChatPanel` message effect: first try to
parse the legacy `content` property (when truthy) as a single event, then
split every truthy textual part on line feeds and parse each non-blank
trimmed line; lines that fail to parse are skipped.  The event-name
whitelist check is subsumed by the parse function returning `SEvent`. -/
def extractEvents (parse : List Char → Option SEvent) (m : Msg) : List SEvent :=
  (match m.content with
   | some c =>
     if c.isEmpty then []
     else
       match parse (trimChars c) with
       | some e => [e]
       | none => []
   | none => []) ++
  m.parts.flatMap (fun p =>
    if p.isText && !p.text.isEmpty then
      (splitNl p.text).filterMap (fun line =>
        let trimmed := trimChars line
        if trimmed.isEmpty then none else parse trimmed)
    else [])

/-- Apply a batch of extracted events through `handleStreamingEvent` in
order. -/
def applyEvents (s : PanelState) (es : List SEvent) : PanelState :=
  es.foldl handleStreamingEvent s

/-- One evaluation of the `AIChatPanel` message effect on the last inbound
message: skip non-assistant messages, skip messages that are not settled,
skip messages whose id was already processed; otherwise record the id,
extract the events and apply them. -/
def processLast (parse : List Char → Option SEvent)
    (s : PanelState) (m : Msg) : PanelState :=
  if m.role = MsgRole.assistant then
    if msgIsDone m then
      if s.processedIds.contains m.id then s
      else
        applyEvents
          { s with processedIds := m.id :: s.processedIds }
          (extractEvents parse m)
    else s
  else s

/-- Producer-side phase state machine states.

Modelled from the spec: the server-side emitter of
`phase-start` / `*-content` / `phase-end` / `error` events
(spec §4.3, Phase State Machine) has no implementation under the
repository sources — only its client-side consumer does — so its states
`Idle → RuleGeneration → FollowUp → Completed` with an absorbing
`Errored` state, and the intermediate point between
`phase-end(rule-generation)` and the immediately following
`phase-start(follow-up-message)`, are taken from the specification. -/
inductive PState
  | idle
  | ruleGen
  | ruleGenEnded
  | followUp
  | completed
  | errored
deriving DecidableEq, Repr

/-- Modelled from the spec: one transition of the producer phase state
machine (spec §4.3), labelled by the event it emits.  `none` means the
producer never emits that event in that state. -/
def pstep : PState → StreamChunk → Option PState
  | .idle, .phaseStart .ruleGeneration _ => some .ruleGen
  | .ruleGen, .ruleContent _ => some .ruleGen
  | .ruleGen, .phaseEnd .ruleGeneration _ => some .ruleGenEnded
  | .ruleGenEnded, .phaseStart .followUpMessage _ => some .followUp
  | .followUp, .followUpContent _ => some .followUp
  | .followUp, .phaseEnd .followUpMessage _ => some .completed
  | .idle, .error _ => some .errored
  | .ruleGen, .error _ => some .errored
  | .ruleGenEnded, .error _ => some .errored
  | .followUp, .error _ => some .errored
  | _, _ => none

/-- Modelled from the spec: run the producer state machine over an event
sequence; `some` exactly when the sequence is one the producer can emit
from the given state. -/
def pRun : PState → List StreamChunk → Option PState
  | p, [] => some p
  | p, c :: cs =>
    match pstep p c with
    | some q => pRun q cs
    | none => none

/-- Fold the `generateRule` reducer over an already-parsed event list. -/
def processChunks (s : SessionState) (cs : List StreamChunk) : SessionState :=
  cs.foldl applyChunk s

/-- Simulation relation between producer states and consumer session
states, used to prove the phase-ordering invariant: it pins down the two
streaming flags in every producer state and the `currentPhase` while the
follow-up phase is streaming. -/
def phaseRel (p : PState) (s : SessionState) : Prop :=
  match p with
  | .idle => s.isStreamingRule = false ∧ s.isStreamingFollowUp = false
  | .ruleGen => s.isStreamingRule = true ∧ s.isStreamingFollowUp = false
  | .ruleGenEnded => s.isStreamingRule = false ∧ s.isStreamingFollowUp = false
  | .followUp => s.isStreamingRule = false ∧ s.isStreamingFollowUp = true ∧
      s.currentPhase = CurrentPhase.followUpMessage
  | .completed => s.isStreamingRule = false ∧ s.isStreamingFollowUp = false
  | .errored => s.isStreamingRule = false ∧ s.isStreamingFollowUp = false

/-- Cons a character onto the first segment of a split result (the inner
match of `splitNl`). -/
def consHead (c : Char) : List (List Char) → List (List Char)
  | [] => [[c]]
  | l :: ls => (c :: l) :: ls

/-- Glue a carried-over prefix onto the first segment of a split result:
how a buffered partial line combines with the next fragment's lines. -/
def glueHead (t : List Char) : List (List Char) → List (List Char)
  | [] => [t]
  | l :: ls => (t ++ l) :: ls

/-- Concrete parse fixture mapping one-character payloads to events, used
to instantiate the abstract `JSON.parse` embedding on concrete streams. -/
def parseFix : List Char → Option StreamChunk
  | ['R'] => some (.ruleContent (some "hi"))
  | ['B'] => some (.ruleContent (some "yo"))
  | ['E'] => some (.error (some "boom"))
  | ['P'] => some (.phaseStart .ruleGeneration none)
  | ['F'] => some (.phaseStart .followUpMessage none)
  | ['Q'] => some (.phaseEnd .ruleGeneration none)
  | ['G'] => some (.followUpContent (some "fu"))
  | ['D'] => some (.phaseEnd .followUpMessage none)
  | _ => none

/-- Concrete fragment: a rule-content line followed by an in-band error
line, then stream end. -/
def fragErr : List Char := "data: R\ndata: E\n".data

/-- Concrete fragment: a single rule-content line and no terminal event. -/
def fragNoTerm : List Char := "data: R\n".data

/-- Concrete session state with non-empty accumulated content and a
recorded error, for counterexamples. -/
def sAcc : SessionState :=
  { isGenerating := true
    isStreamingRule := true
    isStreamingFollowUp := false
    currentPhase := .ruleGeneration
    ruleContent := "abc"
    followUpContent := "fw"
    error := some "e"
    metadata := none }

/-- Concrete metadata value. -/
def md0 : Metadata := { ruleType := .projectRule, fileName := some "f.mdc" }

/-- Concrete parse fixture for the `AIChatPanel` event line parser. -/
def panelParseFix : List Char → Option SEvent
  | ['M'] => some .meta
  | ['C'] => some (.chunk (some "ab"))
  | ['D'] => some .done
  | _ => none

/-- Initial `AIChatPanel` state. -/
def panel0 : PanelState :=
  { isGeneratingRules := false, ruleContent := "", processedIds := [] }

/-- Concrete assistant message with a still-streaming textual part. -/
def msgStreaming : Msg :=
  { id := "m1"
    role := .assistant
    parts := [{ isText := true, state := .streaming, text := "M".data }]
    content := none }

/-- Concrete settled assistant message whose text holds a meta line and a
chunk line. -/
def msgDone : Msg :=
  { id := "m2"
    role := .assistant
    parts := [{ isText := true, state := .done, text := "M\nC".data }]
    content := none }

/-- Concrete producer-valid event trace covering both phases. -/
def trace0 : List StreamChunk :=
  [.phaseStart .ruleGeneration none,
   .ruleContent (some "hi"),
   .phaseEnd .ruleGeneration none,
   .phaseStart .followUpMessage none,
   .followUpContent (some "fu"),
   .phaseEnd .followUpMessage none]

/-- The prefix of `trace0` before its `follow-up-content` event. -/
def trace0pre : List StreamChunk :=
  [.phaseStart .ruleGeneration none,
   .ruleContent (some "hi"),
   .phaseEnd .ruleGeneration none,
   .phaseStart .followUpMessage none]

lemma splitNl_cons (c : Char) (cs : List Char) :
    splitNl (c :: cs) =
      if c = '\n' then [] :: splitNl cs else consHead c (splitNl cs) := by
  cases h : splitNl cs <;> simp only [splitNl, consHead, h]

lemma splitNl_ne_nil (l : List Char) : splitNl l ≠ [] := by
  induction l with
  | nil => simp [splitNl]
  | cons c cs ih =>
    rw [splitNl_cons]
    split
    · simp
    · cases h : splitNl cs <;> simp [consHead]

lemma lastSeg_cons_cons (a b : List Char) (ls : List (List Char)) :
    lastSeg (a :: b :: ls) = lastSeg (b :: ls) := rfl

lemma lastSeg_mem (ls : List (List Char)) (h : ls ≠ []) : lastSeg ls ∈ ls := by
  induction ls with
  | nil => simp at h
  | cons a as ih =>
    cases as with
    | nil => simp [lastSeg]
    | cons b bs =>
      rw [lastSeg_cons_cons]
      exact List.mem_cons_of_mem a (ih (by simp))

lemma mem_splitNl_no_nl (l : List Char) : ∀ x ∈ splitNl l, '\n' ∉ x := by
  induction l with
  | nil => intro x hx; simp [splitNl] at hx; simp [hx]
  | cons c cs ih =>
    intro x hx
    rw [splitNl_cons] at hx
    by_cases hc : c = '\n'
    · rw [if_pos hc] at hx
      rcases List.mem_cons.mp hx with h | h
      · simp [h]
      · exact ih x h
    · rw [if_neg hc] at hx
      cases h : splitNl cs with
      | nil => exact absurd h (splitNl_ne_nil cs)
      | cons a as =>
        rw [h] at hx
        rcases List.mem_cons.mp hx with h1 | h1
        · subst h1
          intro hmem
          rcases List.mem_cons.mp hmem with h2 | h2
          · exact hc h2.symm
          · exact ih a (by simp [h]) h2
        · exact ih x (by simp [h, h1])

lemma splitNl_no_nl (l : List Char) (h : '\n' ∉ l) : splitNl l = [l] := by
  induction l with
  | nil => simp [splitNl]
  | cons c cs ih =>
    simp at h
    rw [splitNl_cons, if_neg (by intro hc; exact h.1 hc.symm), ih h.2]
    rfl

lemma splitNl_append (x y : List Char) :
    splitNl (x ++ y) =
      (splitNl x).dropLast ++ glueHead (lastSeg (splitNl x)) (splitNl y) := by
  induction x with
  | nil =>
    cases h : splitNl y with
    | nil => exact absurd h (splitNl_ne_nil y)
    | cons a as => simp [splitNl, lastSeg, glueHead, h]
  | cons c cs ih =>
    by_cases hc : c = '\n'
    · subst hc
      rw [List.cons_append, splitNl_cons, if_pos rfl, ih,
          splitNl_cons, if_pos rfl]
      cases h2 : splitNl cs with
      | nil => exact absurd h2 (splitNl_ne_nil cs)
      | cons b bs =>
        rw [lastSeg_cons_cons]
        rfl
    · rw [List.cons_append, splitNl_cons, if_neg hc, ih,
          splitNl_cons, if_neg hc]
      cases h2 : splitNl cs with
      | nil => exact absurd h2 (splitNl_ne_nil cs)
      | cons b bs =>
        cases bs with
        | nil =>
          cases h3 : splitNl y with
          | nil => exact absurd h3 (splitNl_ne_nil y)
          | cons a as => simp [consHead, glueHead, lastSeg, h3]
        | cons b2 bs2 =>
          simp [consHead, glueHead, lastSeg_cons_cons, List.dropLast]

lemma glueHead_ne_nil (t : List Char) (ls : List (List Char)) :
    glueHead t ls ≠ [] := by
  cases ls <;> simp [glueHead]

lemma feedLoop_eq (fs : List (List Char)) : ∀ buf, '\n' ∉ buf →
    feedLoop buf fs = (splitNl (buf ++ fs.flatten)).dropLast := by
  induction fs with
  | nil =>
    intro buf hb
    simp [feedLoop, splitNl_no_nl buf hb]
  | cons f fs ih =>
    intro buf hb
    have hL : '\n' ∉ lastSeg (splitNl (buf ++ f)) :=
      mem_splitNl_no_nl (buf ++ f) _ (lastSeg_mem _ (splitNl_ne_nil _))
    have hsplit : splitNl (lastSeg (splitNl (buf ++ f)) ++ fs.flatten) =
        glueHead (lastSeg (splitNl (buf ++ f))) (splitNl fs.flatten) := by
      rw [splitNl_append, splitNl_no_nl _ hL]
      rfl
    calc feedLoop buf (f :: fs)
        = (splitNl (buf ++ f)).dropLast ++
            feedLoop (lastSeg (splitNl (buf ++ f))) fs := rfl
      _ = (splitNl (buf ++ f)).dropLast ++
            (splitNl (lastSeg (splitNl (buf ++ f)) ++ fs.flatten)).dropLast := by
            rw [ih _ hL]
      _ = (splitNl (buf ++ f)).dropLast ++
            (glueHead (lastSeg (splitNl (buf ++ f))) (splitNl fs.flatten)).dropLast := by
            rw [hsplit]
      _ = ((splitNl (buf ++ f)).dropLast ++
            glueHead (lastSeg (splitNl (buf ++ f))) (splitNl fs.flatten)).dropLast := by
            rw [List.dropLast_append_of_ne_nil _ (glueHead_ne_nil _ _)]
      _ = (splitNl (buf ++ (f :: fs).flatten)).dropLast := by
            rw [List.flatten_cons, ← List.append_assoc,
                splitNl_append (buf ++ f) fs.flatten]

/-- C6: for every sequence of raw text fragments, the chunk decoder emits
exactly the complete newline-terminated lines of the concatenated stream,
in order: the segments of the full stream split on line feed, without the
final (unterminated, possibly empty) segment.  The trailing partial line
is carried forward in the buffer across fragments — a line split across
two fragments is emitted once, reassembled — and at stream end the
remaining unterminated buffer is discarded. -/
theorem chunk_decoder_emits_complete_lines (frags : List (List Char)) :
    feedAll frags = (splitNl frags.flatten).dropLast := by
  rw [feedAll, feedLoop_eq frags [] (by simp)]
  rfl

lemma str_append_data_nil (s t : String) (h : t.data = []) : s ++ t = s := by
  cases t with
  | mk dt =>
    have hd : dt = [] := h
    subst hd
    cases s with
    | mk ds =>
      show String.mk (ds ++ []) = String.mk ds
      rw [List.append_nil]

lemma applyChunk_ruleContent_eq (s : SessionState) (a : String) :
    applyChunk s (.ruleContent (some a)) =
      { s with ruleContent := s.ruleContent ++ a } := by
  by_cases ha : a.data.isEmpty
  · have ha' : a.data = [] := by simpa using ha
    have hT : jsTruthy (some a) = false := by simp [jsTruthy, ha]
    have happ : s.ruleContent ++ a = s.ruleContent := str_append_data_nil _ _ ha'
    rw [happ]
    simp [applyChunk, hT]
  · simp [applyChunk, jsTruthy, ha]

lemma applyChunk_followUpContent_eq (s : SessionState) (a : String) :
    applyChunk s (.followUpContent (some a)) =
      { s with followUpContent := s.followUpContent ++ a } := by
  by_cases ha : a.data.isEmpty
  · have ha' : a.data = [] := by simpa using ha
    have hT : jsTruthy (some a) = false := by simp [jsTruthy, ha]
    have happ : s.followUpContent ++ a = s.followUpContent := str_append_data_nil _ _ ha'
    rw [happ]
    simp [applyChunk, hT]
  · simp [applyChunk, jsTruthy, ha]

/-- C1: an in-band `error` event (here after prior accumulated content
`"hi"`) does set `isGenerating = false` and does record the error text
into the session error field — but the overall `generateRule` call does
not reject with that message: the `throw` in the `error` case is caught
by the enclosing JSON-parse `catch`, the loop continues, and the call
resolves with the accumulated content. -/
theorem error_event_records_state_but_call_resolves :
    (finalSession parseFix initialState [fragErr]).isGenerating = false ∧
    (finalSession parseFix initialState [fragErr]).error = some "boom" ∧
    generateRule parseFix true initialState [fragErr] =
      GenOutcome.resolved { ruleContent := "hi", followUpMessage := "",
                            ruleType := .projectRule,
                            fileName := "generated-rule" } ∧
    isRejected (generateRule parseFix true initialState [fragErr]) = false := by
  decide

/-- C2 counterexample: a stream consisting of a single `rule-content`
line and no terminal event does not make `generateRule` reject — the
call resolves with the accumulated content. -/
theorem no_terminal_event_still_resolves_cex :
    isRejected (generateRule parseFix true initialState [fragNoTerm]) = false ∧
    generateRule parseFix true initialState [fragNoTerm] =
      GenOutcome.resolved { ruleContent := "hi", followUpMessage := "",
                            ruleType := .projectRule,
                            fileName := "generated-rule" } := by
  decide

/-- C2 amended: on a successful transport, `generateRule` never rejects
on account of the stream contents; when the stream ends — with or
without a terminal event — the call resolves with the response built
from the accumulated session state. -/
theorem generateRule_resolves_with_accumulated (parse : List Char → Option StreamChunk)
    (s : SessionState) (frags : List (List Char)) :
    isRejected (generateRule parse true s frags) = false ∧
    generateRule parse true s frags =
      GenOutcome.resolved (buildResponse (finalSession parse s frags)) :=
  ⟨rfl, rfl⟩

/-- C3 counterexample: a `phase-end(rule-generation)` carrying the empty
string as `finalContent` does not override the accumulator — the
accumulated `"abc"` is kept, because the code uses
`finalContent || currentRuleContent` and the empty string is falsy. -/
theorem phase_end_empty_final_content_cex :
    (applyChunk sAcc (StreamChunk.phaseEnd .ruleGeneration (some ""))).ruleContent = "abc" ∧
    ¬ (applyChunk sAcc (StreamChunk.phaseEnd .ruleGeneration (some ""))).ruleContent = "" := by
  decide

/-- C3 amended: on `phase-end(rule-generation)` the resulting
`ruleContent` equals the event's `finalContent` whenever a non-empty
`finalContent` is supplied, and equals the previously accumulated
`ruleContent` when `finalContent` is absent or empty; `isStreamingRule`
becomes false.  The same override rule applies to `followUpContent` on
`phase-end(follow-up-message)`. -/
theorem phase_end_overrides_only_nonempty (s : SessionState) :
    (∀ t : String, t.data ≠ [] →
       (applyChunk s (.phaseEnd .ruleGeneration (some t))).ruleContent = t) ∧
    (applyChunk s (.phaseEnd .ruleGeneration (some ""))).ruleContent = s.ruleContent ∧
    (applyChunk s (.phaseEnd .ruleGeneration none)).ruleContent = s.ruleContent ∧
    (∀ fin, (applyChunk s (.phaseEnd .ruleGeneration fin)).isStreamingRule = false) ∧
    (∀ t : String, t.data ≠ [] →
       (applyChunk s (.phaseEnd .followUpMessage (some t))).followUpContent = t) ∧
    (applyChunk s (.phaseEnd .followUpMessage (some ""))).followUpContent = s.followUpContent ∧
    (applyChunk s (.phaseEnd .followUpMessage none)).followUpContent = s.followUpContent ∧
    (∀ fin, (applyChunk s (.phaseEnd .followUpMessage fin)).isStreamingFollowUp = false) := by
  refine ⟨?_, rfl, rfl, fun _ => rfl, ?_, rfl, rfl, fun _ => rfl⟩
  · intro t ht
    have h : t.data.isEmpty = false := by simpa using ht
    simp [applyChunk, jsOrStr, h]
  · intro t ht
    have h : t.data.isEmpty = false := by simpa using ht
    simp [applyChunk, jsOrStr, h]

/-- C3 witness: a non-empty final content overrides the accumulator. -/
theorem phase_end_overrides_witness :
    ("xy" : String).data ≠ [] ∧
    (applyChunk sAcc (StreamChunk.phaseEnd .ruleGeneration (some "xy"))).ruleContent = "xy" :=
  ⟨by decide, (phase_end_overrides_only_nonempty sAcc).1 "xy" (by decide)⟩

/-- C7: a stream of three lines — a valid rule-content line, a line whose
payload fails to parse, a second valid rule-content line — is processed
without any exception reaching the caller (`processLines` is total: the
parse failure is dropped by the `catch` branch and the loop continues),
and the accumulated rule content is the concatenation of exactly the two
valid chunks' content; the session error field is untouched. -/
theorem malformed_line_between_chunks (parse : List Char → Option StreamChunk)
    (s : SessionState) (l1 lbad l2 : List Char) (a b : String)
    (h1t : (trimChars l1).isEmpty = false) (h1d : startsWithData l1 = true)
    (h1p : parse (l1.drop 6) = some (.ruleContent (some a)))
    (hbt : (trimChars lbad).isEmpty = false) (hbd : startsWithData lbad = true)
    (hbp : parse (lbad.drop 6) = none)
    (h2t : (trimChars l2).isEmpty = false) (h2d : startsWithData l2 = true)
    (h2p : parse (l2.drop 6) = some (.ruleContent (some b))) :
    (processLines parse s [l1, lbad, l2]).ruleContent = s.ruleContent ++ a ++ b ∧
    (processLines parse s [l1, lbad, l2]).error = s.error := by
  have s1 : processLine parse s l1 = { s with ruleContent := s.ruleContent ++ a } := by
    simp [processLine, h1t, h1d, h1p, applyChunk_ruleContent_eq]
  have s2 : ∀ u : SessionState, processLine parse u lbad = u := by
    intro u
    simp [processLine, hbt, hbd, hbp]
  have s3 : ∀ u : SessionState, processLine parse u l2 =
      { u with ruleContent := u.ruleContent ++ b } := by
    intro u
    simp [processLine, h2t, h2d, h2p, applyChunk_ruleContent_eq]
  simp [processLines, List.foldl, s1, s2, s3]

/-- C7 witness: concrete three-line stream with a malformed middle line. -/
theorem malformed_line_between_chunks_witness :
    parseFix (("data: %%".data).drop 6) = none ∧
    (processLines parseFix (startGenerate initialState)
        ["data: R".data, "data: %%".data, "data: B".data]).ruleContent =
      (startGenerate initialState).ruleContent ++ "hi" ++ "yo" :=
  ⟨by decide,
   (malformed_line_between_chunks parseFix (startGenerate initialState)
      ("data: R".data) ("data: %%".data) ("data: B".data) "hi" "yo"
      (by decide) (by decide) (by decide) (by decide) (by decide) (by decide)
      (by decide) (by decide) (by decide)).1⟩

/-- C8 counterexample: applying `phase-start(rule-generation)` to a state
with accumulated content and a recorded error leaves `ruleContent`,
`followUpContent` and `error` untouched — the handler only spreads the
previous state and sets the streaming flag, phase and metadata; the
reset the claim describes happens at the start of `generateRule`, not
per event. -/
theorem phase_start_does_not_reset_cex :
    (applyChunk sAcc (StreamChunk.phaseStart .ruleGeneration (some md0))).ruleContent ≠ "" ∧
    (applyChunk sAcc (StreamChunk.phaseStart .ruleGeneration (some md0))).followUpContent ≠ "" ∧
    (applyChunk sAcc (StreamChunk.phaseStart .ruleGeneration (some md0))).error ≠ none := by
  decide

/-- C8 amended: applying `phase-start(rule-generation)` sets
`isStreamingRule = true`, `currentPhase = rule-generation` and stores the
event's metadata, leaving `ruleContent`, `followUpContent`, `error` and
the remaining fields unchanged; the reset of both content fields and of
the error to null happens once in the state update at the start of
`generateRule`, before any event is applied. -/
theorem phase_start_sets_flags_keeps_content (s : SessionState) (md : Option Metadata) :
    (applyChunk s (.phaseStart .ruleGeneration md)).isStreamingRule = true ∧
    (applyChunk s (.phaseStart .ruleGeneration md)).currentPhase = CurrentPhase.ruleGeneration ∧
    (applyChunk s (.phaseStart .ruleGeneration md)).metadata = md ∧
    (applyChunk s (.phaseStart .ruleGeneration md)).ruleContent = s.ruleContent ∧
    (applyChunk s (.phaseStart .ruleGeneration md)).followUpContent = s.followUpContent ∧
    (applyChunk s (.phaseStart .ruleGeneration md)).error = s.error ∧
    (applyChunk s (.phaseStart .ruleGeneration md)).isGenerating = s.isGenerating ∧
    (applyChunk s (.phaseStart .ruleGeneration md)).isStreamingFollowUp = s.isStreamingFollowUp ∧
    (startGenerate s).ruleContent = "" ∧
    (startGenerate s).followUpContent = "" ∧
    (startGenerate s).error = none :=
  ⟨rfl, rfl, rfl, rfl, rfl, rfl, rfl, rfl, rfl, rfl, rfl⟩

/-- C10: a `chunk` event handled while `isGeneratingRules` is false (no
prior `meta`, or a `done`/`error`/`clarify` already cleared the flag)
leaves the `AIChatPanel` state — in particular the accumulated rule
content — unchanged: the content is silently dropped. -/
theorem inactive_chunk_content_dropped (s : PanelState) (content : Option String)
    (h : s.isGeneratingRules = false) :
    handleStreamingEvent s (.chunk content) = s := by
  simp [handleStreamingEvent, h]

/-- C10 witness: a chunk arriving in the initial panel state is dropped. -/
theorem inactive_chunk_content_dropped_witness :
    panel0.isGeneratingRules = false ∧
    handleStreamingEvent panel0 (.chunk (some "zz")) = panel0 :=
  ⟨rfl, inactive_chunk_content_dropped panel0 (some "zz") rfl⟩

lemma handleStreamingEvent_processedIds (s : PanelState) (e : SEvent) :
    (handleStreamingEvent s e).processedIds = s.processedIds := by
  cases e with
  | chunk c =>
    simp only [handleStreamingEvent]
    split <;> rfl
  | meta => rfl
  | progress => rfl
  | file => rfl
  | done => rfl
  | error => rfl
  | clarify => rfl

lemma applyEvents_processedIds (es : List SEvent) :
    ∀ s : PanelState, (applyEvents s es).processedIds = s.processedIds := by
  induction es with
  | nil => intro s; rfl
  | cons e es ih =>
    intro s
    show (applyEvents (handleStreamingEvent s e) es).processedIds = s.processedIds
    rw [ih, handleStreamingEvent_processedIds]

lemma processLast_fresh (parse : List Char → Option SEvent) (s : PanelState) (m : Msg)
    (hrole : m.role = MsgRole.assistant) (hdone : msgIsDone m = true)
    (hnew : s.processedIds.contains m.id = false) :
    processLast parse s m =
      applyEvents { s with processedIds := m.id :: s.processedIds }
        (extractEvents parse m) := by
  have hnew' : m.id ∉ s.processedIds := by simpa using hnew
  simp [processLast, hrole, hdone, hnew']

lemma processLast_skip_processed (parse : List Char → Option SEvent) (s : PanelState)
    (m : Msg) (hrole : m.role = MsgRole.assistant) (hdone : msgIsDone m = true)
    (hc : s.processedIds.contains m.id = true) :
    processLast parse s m = s := by
  have hc' : m.id ∈ s.processedIds := by simpa using hc
  simp [processLast, hrole, hdone, hc']

lemma processLast_skip_streaming (parse : List Char → Option SEvent) (s : PanelState)
    (m : Msg) (hdone : msgIsDone m = false) :
    processLast parse s m = s := by
  simp only [processLast, hdone]
  split <;> simp

lemma not_done_of_streaming (m : Msg) (p : MsgPart) (hp : p ∈ m.parts)
    (ht : p.isText = true) (hs : p.state = PartState.streaming) :
    msgIsDone m = false := by
  cases h : msgIsDone m
  · rfl
  · exfalso
    rw [msgIsDone] at h
    have hall : (!p.isText || (p.state == PartState.done)) = true :=
      List.all_eq_true.mp h p hp
    rw [ht, hs] at hall
    exact absurd hall (by decide)

/-- C4: for every inbound assistant message, if any textual part is still
in `streaming` state the completion gate refuses the message — its text
is never handed to the event line parser and the panel state is
unchanged; once every textual part is `done`, the message is parsed and
applied exactly once: the first evaluation records the id and applies the
extracted events, and re-evaluating the effect on the resulting state is
the identity. -/
theorem completion_gate_parses_settled_once (parse : List Char → Option SEvent)
    (s : PanelState) (m : Msg) (hrole : m.role = MsgRole.assistant) :
    ((∃ p ∈ m.parts, p.isText = true ∧ p.state = PartState.streaming) →
       processLast parse s m = s) ∧
    (msgIsDone m = true → s.processedIds.contains m.id = false →
       processLast parse s m =
         applyEvents { s with processedIds := m.id :: s.processedIds }
           (extractEvents parse m) ∧
       processLast parse (processLast parse s m) m = processLast parse s m) := by
  constructor
  · rintro ⟨p, hp, ht, hs⟩
    exact processLast_skip_streaming parse s m (not_done_of_streaming m p hp ht hs)
  · intro hdone hnew
    have happ := processLast_fresh parse s m hrole hdone hnew
    refine ⟨happ, ?_⟩
    have hcontains : (processLast parse s m).processedIds.contains m.id = true := by
      rw [happ, applyEvents_processedIds]
      simp
    exact processLast_skip_processed parse (processLast parse s m) m hrole hdone hcontains

/-- C4 witness: a streaming message is refused; a settled message is
processed once and re-evaluation is the identity. -/
theorem completion_gate_witness :
    processLast panelParseFix panel0 msgStreaming = panel0 ∧
    processLast panelParseFix (processLast panelParseFix panel0 msgDone) msgDone =
      processLast panelParseFix panel0 msgDone :=
  ⟨(completion_gate_parses_settled_once panelParseFix panel0 msgStreaming rfl).1
     ⟨{ isText := true, state := PartState.streaming, text := "M".data },
      by decide, rfl, rfl⟩,
   ((completion_gate_parses_settled_once panelParseFix panel0 msgDone rfl).2
      (by decide) (by decide)).2⟩

/-- C5: the dedup guard makes processing idempotent per message id: the
first presentation of a settled id records it and applies the reducer
over the extracted events, so the accumulated rule content is exactly one
application's worth; every subsequent presentation of the same id is
skipped and leaves the state unchanged. -/
theorem dedup_guard_applies_exactly_once (parse : List Char → Option SEvent)
    (s : PanelState) (m : Msg)
    (hrole : m.role = MsgRole.assistant) (hdone : msgIsDone m = true)
    (hnew : s.processedIds.contains m.id = false) :
    (processLast parse s m).processedIds.contains m.id = true ∧
    (processLast parse s m).ruleContent =
      (applyEvents { s with processedIds := m.id :: s.processedIds }
        (extractEvents parse m)).ruleContent ∧
    processLast parse (processLast parse s m) m = processLast parse s m := by
  have happ := processLast_fresh parse s m hrole hdone hnew
  have hcontains : (processLast parse s m).processedIds.contains m.id = true := by
    rw [happ, applyEvents_processedIds]
    simp
  exact ⟨hcontains, by rw [happ],
         processLast_skip_processed parse (processLast parse s m) m hrole hdone hcontains⟩

/-- C5 witness: the settled message `msgDone` is recorded on first
presentation and the second presentation changes nothing. -/
theorem dedup_guard_witness :
    (processLast panelParseFix panel0 msgDone).processedIds.contains msgDone.id = true ∧
    processLast panelParseFix (processLast panelParseFix panel0 msgDone) msgDone =
      processLast panelParseFix panel0 msgDone :=
  ⟨(dedup_guard_applies_exactly_once panelParseFix panel0 msgDone rfl
      (by decide) (by decide)).1,
   (dedup_guard_applies_exactly_once panelParseFix panel0 msgDone rfl
      (by decide) (by decide)).2.2⟩

lemma ruleContent_flags (s : SessionState) (c : Option String) :
    (applyChunk s (.ruleContent c)).isStreamingRule = s.isStreamingRule ∧
    (applyChunk s (.ruleContent c)).isStreamingFollowUp = s.isStreamingFollowUp ∧
    (applyChunk s (.ruleContent c)).currentPhase = s.currentPhase := by
  simp only [applyChunk]
  split <;> exact ⟨rfl, rfl, rfl⟩

lemma followUpContent_flags (s : SessionState) (c : Option String) :
    (applyChunk s (.followUpContent c)).isStreamingRule = s.isStreamingRule ∧
    (applyChunk s (.followUpContent c)).isStreamingFollowUp = s.isStreamingFollowUp ∧
    (applyChunk s (.followUpContent c)).currentPhase = s.currentPhase := by
  simp only [applyChunk]
  split <;> exact ⟨rfl, rfl, rfl⟩

lemma phaseRel_step (p q : PState) (c : StreamChunk) (s : SessionState)
    (h : pstep p c = some q) (hr : phaseRel p s) :
    phaseRel q (applyChunk s c) := by
  cases c with
  | phaseStart ph md =>
    cases ph <;> cases p <;> simp [pstep] at h <;> subst h <;>
      simp_all [applyChunk, phaseRel]
  | ruleContent co =>
    cases p <;> simp [pstep] at h
    subst h
    exact ⟨by rw [(ruleContent_flags s co).1]; exact hr.1,
           by rw [(ruleContent_flags s co).2.1]; exact hr.2⟩
  | followUpContent co =>
    cases p <;> simp [pstep] at h
    subst h
    exact ⟨by rw [(followUpContent_flags s co).1]; exact hr.1,
           by rw [(followUpContent_flags s co).2.1]; exact hr.2.1,
           by rw [(followUpContent_flags s co).2.2]; exact hr.2.2⟩
  | phaseEnd ph fin =>
    cases ph <;> cases p <;> simp [pstep] at h <;> subst h <;>
      simp_all [applyChunk, phaseRel]
  | error et =>
    cases p <;> simp [pstep] at h <;> subst h <;>
      simp_all [applyChunk, phaseRel]

lemma pRun_append (a b : List StreamChunk) :
    ∀ p, pRun p (a ++ b) = (pRun p a).bind (fun q => pRun q b) := by
  induction a with
  | nil => intro p; rfl
  | cons c cs ih =>
    intro p
    cases h : pstep p c with
    | none => simp [pRun, h]
    | some q => simp [pRun, h, ih q]

lemma phaseRel_run (t : List StreamChunk) : ∀ p s q, pRun p t = some q →
    phaseRel p s → phaseRel q (processChunks s t) := by
  induction t with
  | nil =>
    intro p s q h hr
    have : p = q := by simpa [pRun] using h
    subst this
    exact hr
  | cons c cs ih =>
    intro p s q h hr
    cases hp : pstep p c with
    | none => simp [pRun, hp] at h
    | some r =>
      have h' : pRun r cs = some q := by simpa [pRun, hp] using h
      have hr' := phaseRel_step p r c s hp hr
      have := ih r (applyChunk s c) q h' hr'
      simpa [processChunks, List.foldl] using this

/-- C9: for every event sequence the producer phase state machine can
emit from idle, applied by the client reducer from the state in which
`generateRule` starts reading events: in every reachable state at most
one of `isStreamingRule` and `isStreamingFollowUp` is true, and at the
point where any `follow-up-content` event is applied the phase is
`follow-up-message` — never `rule-generation` — because a
`phase-end(rule-generation)` followed by `phase-start(follow-up-message)`
must have intervened. -/
theorem valid_sequences_phase_ordering (t : List StreamChunk)
    (h : (pRun PState.idle t).isSome = true) :
    (∀ pre post, t = pre ++ post →
       ¬((processChunks (startGenerate initialState) pre).isStreamingRule = true ∧
         (processChunks (startGenerate initialState) pre).isStreamingFollowUp = true)) ∧
    (∀ pre c post, t = pre ++ StreamChunk.followUpContent c :: post →
       (processChunks (startGenerate initialState) pre).currentPhase ≠
         CurrentPhase.ruleGeneration) := by
  have hrel0 : phaseRel PState.idle (startGenerate initialState) := ⟨rfl, rfl⟩
  constructor
  · intro pre post ht
    subst ht
    obtain ⟨r, hr⟩ := Option.isSome_iff_exists.mp h
    rw [pRun_append] at hr
    cases hq : pRun PState.idle pre with
    | none => rw [hq] at hr; simp at hr
    | some q =>
      have hrel := phaseRel_run pre PState.idle (startGenerate initialState) q hq hrel0
      rintro ⟨h1, h2⟩
      cases q <;> simp_all [phaseRel]
  · intro pre c post ht
    subst ht
    obtain ⟨r, hr⟩ := Option.isSome_iff_exists.mp h
    rw [pRun_append] at hr
    cases hq : pRun PState.idle pre with
    | none => rw [hq] at hr; simp at hr
    | some q =>
      rw [hq] at hr
      have hr' : pRun q (StreamChunk.followUpContent c :: post) = some r := by
        simpa using hr
      have hqf : q = PState.followUp := by
        cases hps : pstep q (StreamChunk.followUpContent c) with
        | none => simp [pRun, hps] at hr'
        | some x =>
          cases q <;> first | rfl | simp [pstep] at hps
      subst hqf
      have hrel := phaseRel_run pre PState.idle (startGenerate initialState) _ hq hrel0
      rw [hrel.2.2]
      simp

/-- C9 witness: a full two-phase producer trace is valid, and at its
`follow-up-content` event the phase is not `rule-generation`. -/
theorem valid_sequences_phase_ordering_witness :
    (pRun PState.idle trace0).isSome = true ∧
    (processChunks (startGenerate initialState) trace0pre).currentPhase ≠
      CurrentPhase.ruleGeneration :=
  ⟨by decide,
   (valid_sequences_phase_ordering trace0 (by decide)).2 trace0pre (some "fu")
     [.phaseEnd .followUpMessage none] (by decide)⟩

end RuleCraft
